import Mathlib

/-! Kitchen order readiness tracker (`src/kitchen/main.go`).

A shallow embedding of the order store of the kitchen service and of the
operations that read and write it, followed by the properties proved of them.

Modelling conventions.

* The package-level Go map `pendingOrders : map[string]PendingOrder` is an
  association list with unique keys (`AList`).  A Go map has no iteration
  order; wherever the code ranges over the map the model walks the entries in
  the order of the list, and the properties stated do not depend on it.
* A Go slice is a list.  The `nil` slice and the empty slice are both `[]`.
* `PendingOrder.Items` is a slice header: the copy `k` that `MarkItemReady`
  takes out of the map shares its backing array with the value kept in the
  map, so a write through `pendingOrders[id].Items[i]` is seen by `k` as well.
  The model therefore threads one item list through the loop and uses it both
  for the stored value and for `k`.  Distinct entries own distinct backing
  arrays, as every entry written by `CreatePendingOrder` does (`make`).
* Effects on the outside world are returned: the calls of `OrderCheck`, the
  calls of `DeleteMessage`, the status calls of an HTTP handler.
* JSON decoding is library code; it enters as a parameter (`unmarshal`) or as
  its outcome (the value left in the variable and whether an error came back).
-/

namespace Kitchen

/-- The Go struct `FoodOrder`: the body of an ingestion message. -/
structure FoodOrder where
  Items : List String
deriving DecidableEq

/-- The Go struct `FoodReady`: a readiness event. -/
structure FoodReady where
  OrderID : String
  Item : String
deriving DecidableEq

/-- The Go struct `PendingOrderItem`. -/
structure PendingOrderItem where
  Name : String
  Ready : Bool
deriving DecidableEq

/-- The Go struct `PendingOrder`. -/
structure PendingOrder where
  OrderID : String
  ReceiptHandle : String
  Items : List PendingOrderItem
deriving DecidableEq

/-- The Go map `pendingOrders`, keyed by order id. -/
abbrev Store := AList (fun _ : String => PendingOrder)

/-- The loop body `p.Items[i] = PendingOrderItem{Name: f.Items[i], Ready: false}` of
`CreatePendingOrder` (lines 48-53). -/
def createStep (names : List String) (items : List PendingOrderItem) (i : Nat) :
    List PendingOrderItem :=
  items.set i { Name := names.getD i "", Ready := false }

/-- The items of a new order: `make([]PendingOrderItem, len(f.Items))` gives
`len(f.Items)` zero values, then `for i := range f.Items` fills them in. -/
def createItems (names : List String) : List PendingOrderItem :=
  (List.range names.length).foldl (createStep names)
    (List.replicate names.length { Name := "", Ready := false })

/-- The Go function `CreatePendingOrder` (lines 41-58): returns the order built and the
store after `pendingOrders[orderID] = p`. -/
def CreatePendingOrder (s : Store) (receiptHandle orderID : String) (f : FoodOrder) :
    PendingOrder × Store :=
  let p : PendingOrder :=
    { OrderID := orderID, ReceiptHandle := receiptHandle, Items := createItems f.Items }
  (p, s.insert orderID p)

/-- The loop of the Go method `IsReady` over a slice of items (lines 106-112): the first
item that is not ready returns false, the end of the slice returns true. -/
def itemsReady : List PendingOrderItem → Bool
  | [] => true
  | i :: rest => if !i.Ready then false else itemsReady rest

/-- The Go method `(p *PendingOrder) IsReady` (lines 105-113). -/
def PendingOrder.IsReady (p : PendingOrder) : Bool :=
  itemsReady p.Items

/-- The loop body of `MarkItemReady` at index `i` (lines 63-67), on the backing array
shared by `k.Items` and `pendingOrders[f.OrderID].Items`. -/
def markStep (item : String) (items : List PendingOrderItem) (i : Nat) :
    List PendingOrderItem :=
  match items[i]? with
  | some it => if it.Name = item then items.set i { it with Ready := true } else items
  | none => items

/-- The loop `for i := range k.Items` of `MarkItemReady` (lines 62-68). -/
def markItems (item : String) (items : List PendingOrderItem) : List PendingOrderItem :=
  (List.range items.length).foldl (markStep item) items

/-- What a call of `MarkItemReady` leaves behind: the store, and the orders `OrderCheck`
was invoked on, in order. -/
structure Effects where
  pendingOrders : Store
  orderChecks : List PendingOrder
deriving DecidableEq

/-- The Go function `MarkItemReady` (lines 60-81).  When the id is in the map the items
are marked in place, and `k.IsReady()` is then evaluated on the marked items; when it
holds `k.OrderCheck()` is called.  When the id is not in the map only a line is
printed. -/
def MarkItemReady (s : Store) (f : FoodReady) : Effects :=
  match s.lookup f.OrderID with
  | some k =>
    let k1 : PendingOrder := { k with Items := markItems f.Item k.Items }
    { pendingOrders := s.replace f.OrderID k1,
      orderChecks := if k1.IsReady then [k1] else [] }
  | none => { pendingOrders := s, orderChecks := [] }

/-- A sequence of `MarkItemReady` calls, one after the other, with the `OrderCheck`
calls they made collected in order. -/
def runReady : Store → List FoodReady → Effects
  | s, [] => { pendingOrders := s, orderChecks := [] }
  | s, f :: rest =>
    let e := MarkItemReady s f
    let r := runReady e.pendingOrders rest
    { pendingOrders := r.pendingOrders, orderChecks := e.orderChecks ++ r.orderChecks }

/-- The loop body of the `GET /orders` handler (lines 207-209). -/
def ordersStep (pendingToSend : List PendingOrder) (e : Sigma (fun _ : String => PendingOrder)) :
    List PendingOrder :=
  if !e.2.IsReady then pendingToSend ++ [e.2] else pendingToSend

/-- The list `pendingToSend` the `GET /orders` handler builds (lines 205-210). -/
def ordersQuery (s : Store) : List PendingOrder :=
  s.entries.foldl ordersStep []

/-- An SQS message as `checkForMessages` reads it: `*m.MessageId`, `*m.ReceiptHandle`,
`*m.Body`. -/
structure Message where
  MessageId : String
  ReceiptHandle : String
  Body : String
deriving DecidableEq

/-- What one poll of `checkForMessages` leaves behind: the store, and the receipt
handles `DeleteMessage` was called with, in order. -/
structure PollEffects where
  pendingOrders : Store
  deleted : List String
deriving DecidableEq

/-- The loop `for _, m := range msgResult.Messages` of `checkForMessages`
(lines 148-171).  `unmarshal` is `json.Unmarshal` into a fresh `FoodOrder`, `none` when
it returns an error.  On an error the loop executes `break`, which leaves the loop; on
success the order is created and `DeleteMessage` is called (its error is only
printed). -/
def processMessages (unmarshal : String → Option FoodOrder) : Store → List Message → PollEffects
  | s, [] => { pendingOrders := s, deleted := [] }
  | s, m :: rest =>
    match unmarshal m.Body with
    | none => { pendingOrders := s, deleted := [] }
    | some order =>
      let r := processMessages unmarshal
        (CreatePendingOrder s m.ReceiptHandle m.MessageId order).2 rest
      { pendingOrders := r.pendingOrders, deleted := m.ReceiptHandle :: r.deleted }

/-- What a request to `POST /ready` leaves behind: the store, the `OrderCheck` calls, and
the status codes the handler itself asked for, in order (`AbortWithStatus(500)`,
`Status(200)`). -/
structure ReadyEffects where
  pendingOrders : Store
  orderChecks : List PendingOrder
  statusCalls : List Nat
deriving DecidableEq

/-- The `POST /ready` handler of `main` (lines 183-192).  `ready` is the value
`c.BindJSON(&ready)` left in the variable and `bindFailed` whether it returned an error.
On an error the handler prints it and calls `c.AbortWithStatus(500)`; there is no
`return`, so `MarkItemReady(ready)` and `c.Status(200)` run in either case. -/
def readyHandler (s : Store) (ready : FoodReady) (bindFailed : Bool) : ReadyEffects :=
  let aborted : List Nat := if bindFailed then [500] else []
  let e := MarkItemReady s ready
  { pendingOrders := e.pendingOrders, orderChecks := e.orderChecks,
    statusCalls := aborted ++ [200] }

/-- The `POST /ready` handler as `main_test.go` registers it (lines 162-170 and 194-202):
the same body with a `return` after `c.AbortWithStatus(500)`. -/
def readyHandlerTest (s : Store) (ready : FoodReady) (bindFailed : Bool) : ReadyEffects :=
  if bindFailed then
    { pendingOrders := s, orderChecks := [], statusCalls := [500] }
  else
    let e := MarkItemReady s ready
    { pendingOrders := e.pendingOrders, orderChecks := e.orderChecks, statusCalls := [200] }

/-- Specification-level relation between an item and the same item later on: the name is
kept and readiness is not lost.  Used to state the invariants of a run of events. -/
def itemAdvances (a b : PendingOrderItem) : Prop :=
  b.Name = a.Name ∧ (a.Ready = true → b.Ready = true)

/-- The order `A1` with the single item `Taco`, used in the examples. -/
def tacoOrder (ready : Bool) : PendingOrder :=
  { OrderID := "A1", ReceiptHandle := "rh-1", Items := [{ Name := "Taco", Ready := ready }] }

/-- The order `A1` with the items `Taco` and `Burrito`, both unready (scenario 1 of the
specification). -/
def twoItemOrder : PendingOrder :=
  { OrderID := "A1", ReceiptHandle := "rh-1",
    Items := [{ Name := "Taco", Ready := false }, { Name := "Burrito", Ready := false }] }

/-- A message whose body is not JSON. -/
def badMessage : Message :=
  { MessageId := "m-1", ReceiptHandle := "rh-1", Body := "not json" }

/-- A message whose body is the JSON object with the one field `items`, the array of the
one string `Taco`. -/
def goodMessage : Message :=
  { MessageId := "m-2", ReceiptHandle := "rh-2", Body := "\x7b\"items\":[\"Taco\"]\x7d" }

/-- A decoder for the examples: it gives `json.Unmarshal` on the bodies of `badMessage`
(an error) and of `goodMessage` (the items `Taco`), the two bodies the examples use; the
general statements hold for every decoder. -/
def sampleUnmarshal (body : String) : Option FoodOrder :=
  if body = goodMessage.Body then some { Items := ["Taco"] } else none

/-- A store that holds one order under its own id. -/
def storeOf (p : PendingOrder) : Store :=
  (∅ : Store).insert p.OrderID p

/-! ## The loops, in closed form -/

theorem length_foldl_createStep (names : List String) (n : Nat)
    (items : List PendingOrderItem) :
    ((List.range n).foldl (createStep names) items).length = items.length := by
  induction n with
  | zero => simp
  | succ n ih => simp [List.range_succ, List.foldl_append, createStep, ih]

theorem getElem?_foldl_createStep (names : List String) (items : List PendingOrderItem)
    (n j : Nat) (hn : n ≤ items.length) :
    ((List.range n).foldl (createStep names) items)[j]? =
      if j < n then some { Name := names.getD j "", Ready := false } else items[j]? := by
  induction n with
  | zero => simp
  | succ n ih =>
    have hlen := length_foldl_createStep names n items
    have ih1 := ih (Nat.le_of_succ_le hn)
    simp only [List.range_succ, List.foldl_append, List.foldl_cons, List.foldl_nil]
    have hn1 : n < items.length := hn
    rw [createStep, List.getElem?_set]
    by_cases hj : n = j
    · subst hj
      simp [hlen, hn1]
    · rw [if_neg hj, ih1]
      by_cases h1 : j < n
      · simp [h1, Nat.lt_succ_of_lt h1]
      · have h2 : ¬ j < n + 1 := by omega
        simp [h1, h2]

theorem createItems_eq_map (names : List String) :
    createItems names = names.map (fun n => { Name := n, Ready := false }) := by
  apply List.ext_getElem?
  intro j
  unfold createItems
  rw [getElem?_foldl_createStep names _ names.length j (by simp)]
  by_cases h : j < names.length
  · simp [h, List.getD_eq_getElem?_getD, List.getElem?_eq_getElem h]
  · have h2 : names.length ≤ j := Nat.le_of_not_lt h
    simp [h, List.getElem?_eq_none h2]
    exact h2

theorem length_markStep (item : String) (items : List PendingOrderItem) (i : Nat) :
    (markStep item items i).length = items.length := by
  unfold markStep
  split
  · split <;> simp
  · rfl

theorem length_foldl_markStep (item : String) (n : Nat) (items : List PendingOrderItem) :
    ((List.range n).foldl (markStep item) items).length = items.length := by
  induction n with
  | zero => simp
  | succ n ih => simp [List.range_succ, List.foldl_append, length_markStep, ih]

theorem getElem?_foldl_markStep (item : String) (items : List PendingOrderItem)
    (n j : Nat) (hn : n ≤ items.length) :
    ((List.range n).foldl (markStep item) items)[j]? =
      if j < n then
        (items[j]?).map (fun it => if it.Name = item then { it with Ready := true } else it)
      else items[j]? := by
  induction n generalizing j with
  | zero => simp
  | succ n ih =>
    have hlen := length_foldl_markStep item n items
    have ih1 := ih j (Nat.le_of_succ_le hn)
    have hat : ((List.range n).foldl (markStep item) items)[n]? = items[n]? := by
      rw [ih n (Nat.le_of_succ_le hn)]
      simp
    have hn1 : n < items.length := hn
    simp only [List.range_succ, List.foldl_append, List.foldl_cons, List.foldl_nil]
    rw [markStep, hat, List.getElem?_eq_getElem hn1]
    simp only
    by_cases hname : (items[n]).Name = item
    · rw [if_pos hname, List.getElem?_set]
      by_cases hj : n = j
      · subst hj
        simp [hlen, hn1, hname]
      · rw [if_neg hj, ih1]
        by_cases h1 : j < n
        · simp [h1, Nat.lt_succ_of_lt h1]
        · have h2 : ¬ j < n + 1 := by omega
          simp [h1, h2]
    · rw [if_neg hname, ih1]
      by_cases hj : n = j
      · subst hj
        simp [hn1, hname]
      · by_cases h1 : j < n
        · simp [h1, Nat.lt_succ_of_lt h1]
        · have h2 : ¬ j < n + 1 := by omega
          simp [h1, h2]

theorem markItems_eq_map (item : String) (items : List PendingOrderItem) :
    markItems item items =
      items.map (fun it => if it.Name = item then { it with Ready := true } else it) := by
  apply List.ext_getElem?
  intro j
  unfold markItems
  rw [getElem?_foldl_markStep item items items.length j (Nat.le_refl _)]
  by_cases h : j < items.length
  · simp [h]
  · have h2 : items.length ≤ j := Nat.le_of_not_lt h
    simp [h, List.getElem?_eq_none h2]

theorem itemsReady_iff (items : List PendingOrderItem) :
    itemsReady items = true ↔ ∀ it ∈ items, it.Ready = true := by
  induction items with
  | nil => simp [itemsReady]
  | cons i rest ih =>
    cases hr : i.Ready <;> simp [itemsReady, hr, ih]

/-! ## The store -/

theorem dlookup_kreplace_ne {a c : String} (b : PendingOrder) (h : c ≠ a)
    (l : List (Sigma (fun _ : String => PendingOrder))) :
    List.dlookup c (List.kreplace a b l) = List.dlookup c l := by
  induction l with
  | nil => rfl
  | cons e l ih =>
    obtain ⟨k, v⟩ := e
    by_cases hk : a = k
    · subst hk
      have h1 : List.kreplace a b (⟨a, v⟩ :: l) = ⟨a, b⟩ :: l := by
        simp [List.kreplace, List.lookmap_cons_some]
      rw [h1, List.dlookup_cons_ne _ _ h, List.dlookup_cons_ne _ _ h]
    · have h1 : List.kreplace a b (⟨k, v⟩ :: l) = ⟨k, v⟩ :: List.kreplace a b l := by
        simp [List.kreplace, List.lookmap_cons_none, hk]
      rw [h1]
      by_cases hc : c = k
      · subst hc
        simp
      · rw [List.dlookup_cons_ne _ _ hc, List.dlookup_cons_ne _ _ hc, ih]

theorem dlookup_kreplace_self {a : String} (b : PendingOrder)
    (l : List (Sigma (fun _ : String => PendingOrder))) (h : a ∈ l.keys) :
    List.dlookup a (List.kreplace a b l) = some b := by
  induction l with
  | nil => simp at h
  | cons e l ih =>
    obtain ⟨k, v⟩ := e
    by_cases hk : a = k
    · subst hk
      have h1 : List.kreplace a b (⟨a, v⟩ :: l) = ⟨a, b⟩ :: l := by
        simp [List.kreplace, List.lookmap_cons_some]
      rw [h1, List.dlookup_cons_eq]
    · have h1 : List.kreplace a b (⟨k, v⟩ :: l) = ⟨k, v⟩ :: List.kreplace a b l := by
        simp [List.kreplace, List.lookmap_cons_none, hk]
      have h2 : a ∈ l.keys := by
        simp only [List.keys_cons, List.mem_cons] at h
        rcases h with h | h
        · exact absurd h hk
        · exact h
      rw [h1, List.dlookup_cons_ne _ _ hk, ih h2]

theorem lookup_replace_ne (s : Store) {a c : String} (b : PendingOrder) (h : c ≠ a) :
    (s.replace a b).lookup c = s.lookup c :=
  dlookup_kreplace_ne b h s.entries

theorem lookup_replace_self (s : Store) {a : String} (b k : PendingOrder)
    (h : s.lookup a = some k) : (s.replace a b).lookup a = some b := by
  have hm : a ∈ s.entries.keys := by
    have : a ∈ s := AList.lookup_isSome.mp (by rw [h]; rfl)
    exact this
  exact dlookup_kreplace_self b s.entries hm

theorem replace_same (s : Store) {a : String} {k : PendingOrder}
    (h : s.lookup a = some k) : s.replace a k = s := by
  apply AList.ext
  have hm : (⟨a, k⟩ : Sigma (fun _ : String => PendingOrder)) ∈ s.entries :=
    AList.mem_lookup_iff.mp h
  exact List.kreplace_self s.nodupKeys hm

theorem foldl_ordersStep (l : List (Sigma (fun _ : String => PendingOrder)))
    (acc : List PendingOrder) :
    l.foldl ordersStep acc = acc ++ (l.filter (fun e => !e.2.IsReady)).map (fun e => e.2) := by
  induction l generalizing acc with
  | nil => simp
  | cons e l ih =>
    rw [List.foldl_cons, ih]
    unfold ordersStep
    cases h : e.2.IsReady <;> simp [h]

theorem ordersQuery_eq (s : Store) :
    ordersQuery s = (s.entries.filter (fun e => !e.2.IsReady)).map (fun e => e.2) := by
  unfold ordersQuery
  rw [foldl_ordersStep]
  simp

theorem mem_ordersQuery (s : Store) (o : PendingOrder) :
    o ∈ ordersQuery s ↔ (∃ id, s.lookup id = some o) ∧ o.IsReady = false := by
  rw [ordersQuery_eq]
  constructor
  · intro h
    obtain ⟨e, he, rfl⟩ := List.mem_map.mp h
    obtain ⟨he1, he2⟩ := List.mem_filter.mp he
    refine ⟨⟨e.1, AList.mem_lookup_iff.mpr he1⟩, ?_⟩
    simpa using he2
  · rintro ⟨⟨id, hid⟩, hr⟩
    refine List.mem_map.mpr ⟨⟨id, o⟩, List.mem_filter.mpr ⟨AList.mem_lookup_iff.mp hid, ?_⟩, rfl⟩
    simp [hr]

theorem markItemReady_of_lookup (s : Store) (f : FoodReady) (k : PendingOrder)
    (h : s.lookup f.OrderID = some k) :
    MarkItemReady s f =
      { pendingOrders := s.replace f.OrderID { k with Items := markItems f.Item k.Items },
        orderChecks :=
          if PendingOrder.IsReady { k with Items := markItems f.Item k.Items } then
            [{ k with Items := markItems f.Item k.Items }]
          else [] } := by
  unfold MarkItemReady
  rw [h]

theorem markItemReady_of_absent (s : Store) (f : FoodReady)
    (h : s.lookup f.OrderID = none) :
    MarkItemReady s f = { pendingOrders := s, orderChecks := [] } := by
  unfold MarkItemReady
  rw [h]

/-! ## Creating an order -/

/-- C1: `CreatePendingOrder` returns an order with the given id and receipt handle whose
items are the given names in order, each with `Ready = false` (so `len(N)` of them);
afterwards the store maps the id to the returned order and every other id is mapped as
before. -/
theorem createPendingOrder_returns_and_stores (s : Store) (receiptHandle orderID : String)
    (f : FoodOrder) :
    (CreatePendingOrder s receiptHandle orderID f).1.OrderID = orderID ∧
    (CreatePendingOrder s receiptHandle orderID f).1.ReceiptHandle = receiptHandle ∧
    (CreatePendingOrder s receiptHandle orderID f).1.Items.length = f.Items.length ∧
    (∀ i : Nat, (CreatePendingOrder s receiptHandle orderID f).1.Items[i]? =
        (f.Items[i]?).map (fun name => PendingOrderItem.mk name false)) ∧
    (CreatePendingOrder s receiptHandle orderID f).2.lookup orderID =
        some (CreatePendingOrder s receiptHandle orderID f).1 ∧
    ∀ id, id ≠ orderID →
      (CreatePendingOrder s receiptHandle orderID f).2.lookup id = s.lookup id := by
  refine ⟨rfl, rfl, ?_, ?_, ?_, ?_⟩
  · simp [CreatePendingOrder, createItems_eq_map]
  · intro i
    simp [CreatePendingOrder, createItems_eq_map]
  · simp [CreatePendingOrder]
  · intro id hid
    simp [CreatePendingOrder, AList.lookup_insert_ne hid]

/-- Witness for C1 on a store that already holds the order `A1`: creating `B2` with the
items `Taco`, `Taco` leaves `A1` as it was. -/
theorem createPendingOrder_returns_and_stores_witness :
    (CreatePendingOrder (storeOf twoItemOrder) "rh-2" "B2" ⟨["Taco", "Taco"]⟩).2.lookup "A1" =
      (storeOf twoItemOrder).lookup "A1" :=
  (createPendingOrder_returns_and_stores (storeOf twoItemOrder) "rh-2" "B2"
    ⟨["Taco", "Taco"]⟩).2.2.2.2.2 "A1" (by decide)

/-! ## Completeness of an order -/

/-- C5: `IsReady` returns true exactly when every item of the order has `Ready = true`; it
returns true for an order without items and false as soon as one item is not ready. -/
theorem isReady_iff_all_items_ready (p : PendingOrder) :
    (p.IsReady = true ↔ ∀ it ∈ p.Items, it.Ready = true) ∧
    (p.Items = [] → p.IsReady = true) ∧
    (∀ it ∈ p.Items, it.Ready = false → p.IsReady = false) := by
  have key : p.IsReady = true ↔ ∀ it ∈ p.Items, it.Ready = true := itemsReady_iff p.Items
  refine ⟨key, ?_, ?_⟩
  · intro h
    rw [key, h]
    simp
  · intro it hit hr
    cases hp : p.IsReady
    · rfl
    · have := key.mp hp it hit
      rw [hr] at this
      exact absurd this (by decide)

/-- Witness for C5: the order `Taco` (unready), `Burrito` (unready) is not complete. -/
theorem isReady_iff_all_items_ready_witness : twoItemOrder.IsReady = false :=
  (isReady_iff_all_items_ready twoItemOrder).2.2 ⟨"Burrito", false⟩ (by decide) rfl

/-! ## Readiness events -/

/-- C4: a readiness event whose order id is not a key of the store leaves the store as it
was, so the list of incomplete orders is the same, and `OrderCheck` is not invoked. -/
theorem markItemReady_unknown_order (s : Store) (f : FoodReady)
    (h : s.lookup f.OrderID = none) :
    (MarkItemReady s f).pendingOrders = s ∧
    (MarkItemReady s f).orderChecks = [] ∧
    (∀ id, (MarkItemReady s f).pendingOrders.lookup id = s.lookup id) ∧
    ordersQuery (MarkItemReady s f).pendingOrders = ordersQuery s := by
  rw [markItemReady_of_absent s f h]
  exact ⟨rfl, rfl, fun _ => rfl, rfl⟩

/-- Witness for C4: scenario 4 of the specification, `Z9` on the empty store, and `Z9` on a
store that holds `A1`. -/
theorem markItemReady_unknown_order_witness :
    (MarkItemReady ∅ ⟨"Z9", "Taco"⟩).pendingOrders = ∅ ∧
    (MarkItemReady (storeOf twoItemOrder) ⟨"Z9", "Taco"⟩).orderChecks = [] :=
  ⟨(markItemReady_unknown_order ∅ ⟨"Z9", "Taco"⟩ (by decide)).1,
   (markItemReady_unknown_order (storeOf twoItemOrder) ⟨"Z9", "Taco"⟩ (by decide)).2.1⟩

/-- C2: when the store holds an order `k` under the id of the event, afterwards the order
under that id has the same id, receipt handle, number of items and names in the same
order; its i-th item is ready exactly when the i-th item of `k` was ready or is named as
the event says, so every item of that name is ready; an event that names no item of `k`
leaves the store as it was; every other id is mapped as before. -/
theorem markItemReady_marks_matching_items (s : Store) (f : FoodReady) (k : PendingOrder)
    (h : s.lookup f.OrderID = some k) :
    ∃ k1, (MarkItemReady s f).pendingOrders.lookup f.OrderID = some k1 ∧
      k1.OrderID = k.OrderID ∧ k1.ReceiptHandle = k.ReceiptHandle ∧
      k1.Items.length = k.Items.length ∧
      k1.Items.map (fun it => it.Name) = k.Items.map (fun it => it.Name) ∧
      (∀ (i : Nat) (a b : PendingOrderItem), k.Items[i]? = some a → k1.Items[i]? = some b →
        (b.Ready = true ↔ a.Ready = true ∨ a.Name = f.Item)) ∧
      (∀ b ∈ k1.Items, b.Name = f.Item → b.Ready = true) ∧
      ((∀ a ∈ k.Items, a.Name ≠ f.Item) → (MarkItemReady s f).pendingOrders = s) ∧
      ∀ id, id ≠ f.OrderID → (MarkItemReady s f).pendingOrders.lookup id = s.lookup id := by
  rw [markItemReady_of_lookup s f k h]
  refine ⟨{ k with Items := markItems f.Item k.Items }, lookup_replace_self s _ k h, rfl, rfl,
    ?_, ?_, ?_, ?_, ?_, ?_⟩
  · simp [markItems_eq_map]
  · simp only [markItems_eq_map, List.map_map]
    apply List.map_congr_left
    intro a _
    by_cases hn : a.Name = f.Item <;> simp [hn]
  · intro i a b ha hb
    rw [markItems_eq_map, List.getElem?_map, ha] at hb
    have hb1 : (if a.Name = f.Item then { a with Ready := true } else a) = b :=
      Option.some.inj hb
    by_cases hn : a.Name = f.Item
    · rw [if_pos hn] at hb1
      subst hb1
      simp [hn]
    · rw [if_neg hn] at hb1
      subst hb1
      simp [hn]
  · intro b hb hname
    simp only [markItems_eq_map, List.mem_map] at hb
    obtain ⟨a, _, hab⟩ := hb
    by_cases hn : a.Name = f.Item
    · rw [if_pos hn] at hab
      subst hab
      rfl
    · rw [if_neg hn] at hab
      subst hab
      exact absurd hname hn
  · intro hno
    have hsame : markItems f.Item k.Items = k.Items := by
      rw [markItems_eq_map]
      conv_rhs => rw [← List.map_id k.Items]
      apply List.map_congr_left
      intro a ha
      simp [hno a ha]
    simp only [hsame]
    exact replace_same s h
  · intro id hid
    exact lookup_replace_ne s _ hid

/-- Witness for C2: scenario 2 of the specification; `Taco` of `A1` becomes ready and
`Burrito` stays unready. -/
theorem markItemReady_marks_matching_items_witness :
    ∃ k1, (MarkItemReady (storeOf twoItemOrder) ⟨"A1", "Taco"⟩).pendingOrders.lookup "A1" =
        some k1 ∧
      k1.Items.map (fun it => it.Name) = ["Taco", "Burrito"] := by
  obtain ⟨k1, h1, _, _, _, h5, _⟩ :=
    markItemReady_marks_matching_items (storeOf twoItemOrder) ⟨"A1", "Taco"⟩ twoItemOrder
      (by decide)
  exact ⟨k1, h1, h5⟩

/-! ## The list of incomplete orders -/

theorem itemsReady_map_unready (names : List String) :
    itemsReady (names.map (fun n => PendingOrderItem.mk n false)) = true ↔ names = [] := by
  cases names with
  | nil => simp [itemsReady]
  | cons n rest => simp [itemsReady]

/-- C6: the list the `/orders` handler builds is the list of values of a duplicate-free
enumeration of exactly those entries of the store whose order is not complete, so each
such order is listed once and no complete order is listed; right after
`CreatePendingOrder` the order created is listed exactly when it has an item. -/
theorem ordersQuery_lists_incomplete_once (s : Store) :
    (∃ L : List (Sigma (fun _ : String => PendingOrder)),
      ordersQuery s = L.map (fun e => e.2) ∧
      (L.map (fun e => e.1)).Nodup ∧
      ∀ id o, (Sigma.mk id o) ∈ L ↔ (s.lookup id = some o ∧ o.IsReady = false)) ∧
    (∀ o ∈ ordersQuery s, o.IsReady = false) ∧
    (∀ (receiptHandle orderID : String) (f : FoodOrder),
      ((CreatePendingOrder s receiptHandle orderID f).1 ∈
        ordersQuery (CreatePendingOrder s receiptHandle orderID f).2 ↔ f.Items ≠ []) ∧
      ((∃ o ∈ ordersQuery (CreatePendingOrder s receiptHandle orderID f).2,
        (CreatePendingOrder s receiptHandle orderID f).2.lookup orderID = some o) ↔
          f.Items ≠ [])) := by
  refine ⟨⟨s.entries.filter (fun e => !e.2.IsReady), ordersQuery_eq s, ?_, ?_⟩, ?_, ?_⟩
  · have hsub : ((s.entries.filter (fun e => !e.2.IsReady)).map (fun e => e.1)).Sublist
        (s.entries.map (fun e => e.1)) := (List.filter_sublist _).map _
    exact List.Nodup.sublist hsub s.nodupKeys
  · intro id o
    rw [List.mem_filter]
    constructor
    · rintro ⟨h1, h2⟩
      exact ⟨AList.mem_lookup_iff.mpr h1, by simpa using h2⟩
    · rintro ⟨h1, h2⟩
      exact ⟨AList.mem_lookup_iff.mp h1, by simp [h2]⟩
  · intro o ho
    exact ((mem_ordersQuery s o).mp ho).2
  · intro receiptHandle orderID f
    have hready : (CreatePendingOrder s receiptHandle orderID f).1.IsReady = false ↔
        f.Items ≠ [] := by
      have h := itemsReady_map_unready f.Items
      simp only [CreatePendingOrder, PendingOrder.IsReady, createItems_eq_map]
      rw [Ne, ← h]
      simp
    have hlook : (CreatePendingOrder s receiptHandle orderID f).2.lookup orderID =
        some (CreatePendingOrder s receiptHandle orderID f).1 := by
      simp [CreatePendingOrder]
    constructor
    · rw [mem_ordersQuery, hready]
      constructor
      · exact fun h => h.2
      · exact fun h => ⟨⟨orderID, hlook⟩, h⟩
    · constructor
      · rintro ⟨o, ho, hlo⟩
        rw [hlook] at hlo
        have ho2 : o = (CreatePendingOrder s receiptHandle orderID f).1 :=
          (Option.some.inj hlo).symm
        rw [ho2, mem_ordersQuery] at ho
        exact hready.mp ho.2
      · intro h
        refine ⟨(CreatePendingOrder s receiptHandle orderID f).1, ?_, hlook⟩
        rw [mem_ordersQuery]
        exact ⟨⟨orderID, hlook⟩, hready.mpr h⟩

/-- Witness for C6: scenario 1 and scenario 5 of the specification; `A1` created with two
items is listed, `A2` created without items is not. -/
theorem ordersQuery_lists_incomplete_once_witness :
    (CreatePendingOrder ∅ "rh-1" "A1" ⟨["Taco", "Burrito"]⟩).1 ∈
        ordersQuery (CreatePendingOrder ∅ "rh-1" "A1" ⟨["Taco", "Burrito"]⟩).2 ∧
    (CreatePendingOrder ∅ "rh-2" "A2" ⟨[]⟩).1 ∉
        ordersQuery (CreatePendingOrder ∅ "rh-2" "A2" ⟨[]⟩).2 :=
  ⟨((ordersQuery_lists_incomplete_once ∅).2.2 "rh-1" "A1" ⟨["Taco", "Burrito"]⟩).1.mpr
      (by decide),
   fun h => ((ordersQuery_lists_incomplete_once ∅).2.2 "rh-2" "A2" ⟨[]⟩).1.mp h rfl⟩

/-! ## Creating an order again -/

/-- C7: creating the same order twice gives the same store and the same returned order as
creating it once; and whatever readiness events ran in between, the entry under the id
after the second creation is the entry that stood there right after the first, every
item unready. -/
theorem createPendingOrder_idempotent (s : Store) (receiptHandle orderID : String)
    (f : FoodOrder) (evs : List FoodReady) :
    CreatePendingOrder (CreatePendingOrder s receiptHandle orderID f).2 receiptHandle orderID f
      = CreatePendingOrder s receiptHandle orderID f ∧
    (CreatePendingOrder
        (runReady (CreatePendingOrder s receiptHandle orderID f).2 evs).pendingOrders
        receiptHandle orderID f).1 = (CreatePendingOrder s receiptHandle orderID f).1 ∧
    (CreatePendingOrder
        (runReady (CreatePendingOrder s receiptHandle orderID f).2 evs).pendingOrders
        receiptHandle orderID f).2.lookup orderID =
      (CreatePendingOrder s receiptHandle orderID f).2.lookup orderID ∧
    ∀ o, (CreatePendingOrder
        (runReady (CreatePendingOrder s receiptHandle orderID f).2 evs).pendingOrders
        receiptHandle orderID f).2.lookup orderID = some o →
      ∀ it ∈ o.Items, it.Ready = false := by
  refine ⟨?_, rfl, ?_, ?_⟩
  · simp [CreatePendingOrder, AList.insert_insert]
  · simp [CreatePendingOrder]
  · intro o ho it hit
    simp only [CreatePendingOrder, AList.lookup_insert] at ho
    have ho1 := Option.some.inj ho
    rw [← ho1] at hit
    simp only [createItems_eq_map, List.mem_map] at hit
    obtain ⟨n, _, hn⟩ := hit
    rw [← hn]

/-- Witness for C7: `A1` is created, `Taco` is marked ready, `A1` is created again; the
stored `Taco` is unready again. -/
theorem createPendingOrder_idempotent_witness :
    ∀ it ∈ (tacoOrder false).Items, it.Ready = false :=
  (createPendingOrder_idempotent ∅ "rh-1" "A1" ⟨["Taco"]⟩ [⟨"A1", "Taco"⟩]).2.2.2
    (tacoOrder false) (by decide)

/-! ## Runs of readiness events -/

theorem forall2_itemAdvances_refl (l : List PendingOrderItem) :
    List.Forall₂ itemAdvances l l :=
  List.forall₂_same.mpr (fun _ _ => ⟨rfl, id⟩)

theorem forall2_itemAdvances_trans {l1 l2 l3 : List PendingOrderItem}
    (h12 : List.Forall₂ itemAdvances l1 l2) (h23 : List.Forall₂ itemAdvances l2 l3) :
    List.Forall₂ itemAdvances l1 l3 := by
  induction h12 generalizing l3 with
  | nil => exact h23
  | cons hab _ ih =>
    cases h23 with
    | cons hbc htl =>
      exact List.Forall₂.cons ⟨hbc.1.trans hab.1, fun h => hbc.2 (hab.2 h)⟩ (ih htl)

theorem forall2_itemAdvances_markItems (item : String) (items : List PendingOrderItem) :
    List.Forall₂ itemAdvances items (markItems item items) := by
  rw [markItems_eq_map, List.forall₂_map_right_iff, List.forall₂_same]
  intro a _
  by_cases hn : a.Name = item
  · simp [itemAdvances, hn]
  · simp [itemAdvances, hn]

theorem names_eq_of_forall2 {l1 l2 : List PendingOrderItem}
    (h : List.Forall₂ itemAdvances l1 l2) :
    l2.map (fun it => it.Name) = l1.map (fun it => it.Name) := by
  induction h with
  | nil => rfl
  | cons hab _ ih => simp [hab.1, ih]

theorem getElem?_of_forall2 {l1 l2 : List PendingOrderItem}
    (h : List.Forall₂ itemAdvances l1 l2) (i : Nat) (a : PendingOrderItem)
    (ha : l1[i]? = some a) : ∃ b, l2[i]? = some b ∧ itemAdvances a b := by
  induction h generalizing i with
  | nil => simp at ha
  | cons hab _ ih =>
    cases i with
    | zero =>
      simp only [List.getElem?_cons_zero] at ha
      have := Option.some.inj ha
      subst this
      exact ⟨_, by simp, hab⟩
    | succ j =>
      simp only [List.getElem?_cons_succ] at ha
      obtain ⟨b, hb, hr⟩ := ih j ha
      exact ⟨b, by simpa using hb, hr⟩

theorem itemsReady_of_forall2 {l1 l2 : List PendingOrderItem}
    (h : List.Forall₂ itemAdvances l1 l2) (hr : itemsReady l1 = true) :
    itemsReady l2 = true := by
  induction h with
  | nil => rfl
  | cons hab _ ih =>
    rw [itemsReady_iff] at hr
    have h1 := hr _ (List.mem_cons_self _ _)
    have h2 : itemsReady _ = true :=
      ih ((itemsReady_iff _).mpr (fun it hit => hr it (List.mem_cons_of_mem _ hit)))
    simp [itemsReady, hab.2 h1, h2]

theorem markItemReady_keeps (s : Store) (f : FoodReady) (id : String) (o : PendingOrder)
    (h : s.lookup id = some o) :
    ∃ o1, (MarkItemReady s f).pendingOrders.lookup id = some o1 ∧
      o1.OrderID = o.OrderID ∧ o1.ReceiptHandle = o.ReceiptHandle ∧
      List.Forall₂ itemAdvances o.Items o1.Items := by
  cases hk : s.lookup f.OrderID with
  | none =>
    rw [markItemReady_of_absent s f hk]
    exact ⟨o, h, rfl, rfl, forall2_itemAdvances_refl _⟩
  | some k =>
    rw [markItemReady_of_lookup s f k hk]
    by_cases hid : id = f.OrderID
    · subst hid
      rw [h] at hk
      have hok := Option.some.inj hk
      subst hok
      exact ⟨_, lookup_replace_self s _ o h, rfl, rfl, forall2_itemAdvances_markItems _ _⟩
    · refine ⟨o, ?_, rfl, rfl, forall2_itemAdvances_refl _⟩
      rw [lookup_replace_ne s _ hid]
      exact h

theorem runReady_keeps (evs : List FoodReady) (s : Store) (id : String) (o : PendingOrder)
    (h : s.lookup id = some o) :
    ∃ o1, (runReady s evs).pendingOrders.lookup id = some o1 ∧
      o1.OrderID = o.OrderID ∧ o1.ReceiptHandle = o.ReceiptHandle ∧
      List.Forall₂ itemAdvances o.Items o1.Items := by
  induction evs generalizing s o with
  | nil => exact ⟨o, h, rfl, rfl, forall2_itemAdvances_refl _⟩
  | cons f rest ih =>
    obtain ⟨o1, h1, hid1, hrh1, hf1⟩ := markItemReady_keeps s f id o h
    obtain ⟨o2, h2, hid2, hrh2, hf2⟩ := ih (MarkItemReady s f).pendingOrders o1 h1
    exact ⟨o2, h2, hid2.trans hid1, hrh2.trans hrh1, forall2_itemAdvances_trans hf1 hf2⟩

theorem runReady_append (evs1 evs2 : List FoodReady) (s : Store) :
    runReady s (evs1 ++ evs2) =
      { pendingOrders := (runReady (runReady s evs1).pendingOrders evs2).pendingOrders,
        orderChecks := (runReady s evs1).orderChecks ++
          (runReady (runReady s evs1).pendingOrders evs2).orderChecks } := by
  induction evs1 generalizing s with
  | nil => simp [runReady]
  | cons f rest ih =>
    rw [List.cons_append]
    show Effects.mk _ _ = Effects.mk _ _
    rw [ih (MarkItemReady s f).pendingOrders]
    simp [runReady]

/-- C8: along any sequence of `MarkItemReady` calls an order of the initial store stays in
the store with the same id, receipt handle, number of items and names in the same order;
an item that is ready at one point of the sequence is ready at every later point; an order
that is complete at one point is complete at every later point and the `/orders` list
does not hold it there. -/
theorem runReady_items_fixed_ready_monotone (s : Store) (evs1 evs2 : List FoodReady)
    (id : String) (o : PendingOrder) (h : s.lookup id = some o) :
    ∃ o1 o2,
      (runReady s evs1).pendingOrders.lookup id = some o1 ∧
      (runReady s (evs1 ++ evs2)).pendingOrders.lookup id = some o2 ∧
      (o1.OrderID = o.OrderID ∧ o2.OrderID = o.OrderID) ∧
      (o1.ReceiptHandle = o.ReceiptHandle ∧ o2.ReceiptHandle = o.ReceiptHandle) ∧
      (o1.Items.length = o.Items.length ∧ o2.Items.length = o.Items.length) ∧
      (o1.Items.map (fun it => it.Name) = o.Items.map (fun it => it.Name) ∧
        o2.Items.map (fun it => it.Name) = o.Items.map (fun it => it.Name)) ∧
      (∀ (i : Nat) (a : PendingOrderItem), o1.Items[i]? = some a → a.Ready = true →
        ∃ b, o2.Items[i]? = some b ∧ b.Ready = true) ∧
      (o1.IsReady = true →
        o2.IsReady = true ∧
        ¬ ∃ p ∈ ordersQuery (runReady s (evs1 ++ evs2)).pendingOrders,
          (runReady s (evs1 ++ evs2)).pendingOrders.lookup id = some p) := by
  obtain ⟨o1, h1, hid1, hrh1, hf1⟩ := runReady_keeps evs1 s id o h
  obtain ⟨o2, h2, hid2, hrh2, hf2⟩ :=
    runReady_keeps evs2 (runReady s evs1).pendingOrders id o1 h1
  have happ : (runReady s (evs1 ++ evs2)).pendingOrders =
      (runReady (runReady s evs1).pendingOrders evs2).pendingOrders := by
    rw [runReady_append]
  rw [happ]
  have hf02 := forall2_itemAdvances_trans hf1 hf2
  refine ⟨o1, o2, h1, h2, ⟨hid1, hid2.trans hid1⟩, ⟨hrh1, hrh2.trans hrh1⟩,
    ⟨hf1.length_eq.symm, hf02.length_eq.symm⟩,
    ⟨names_eq_of_forall2 hf1, names_eq_of_forall2 hf02⟩, ?_, ?_⟩
  · intro i a ha hr
    obtain ⟨b, hb, hab⟩ := getElem?_of_forall2 hf2 i a ha
    exact ⟨b, hb, hab.2 hr⟩
  · intro hr1
    have hr2 : o2.IsReady = true := itemsReady_of_forall2 hf2 hr1
    refine ⟨hr2, ?_⟩
    rintro ⟨p, hp, hlp⟩
    rw [h2] at hlp
    have hpe := Option.some.inj hlp
    subst hpe
    have := ((mem_ordersQuery _ _).mp hp).2
    rw [hr2] at this
    exact absurd this (by decide)

/-- Witness for C8: `A1` holds `Taco` and `Burrito`; after `Taco`, `Burrito` the order is
complete, and the later events `Taco`, `Churro` leave it in the store and complete. -/
theorem runReady_items_fixed_ready_monotone_witness :
    ∃ o1 o2,
      (runReady (storeOf twoItemOrder)
        [⟨"A1", "Taco"⟩, ⟨"A1", "Burrito"⟩]).pendingOrders.lookup "A1" = some o1 ∧
      (runReady (storeOf twoItemOrder)
        ([⟨"A1", "Taco"⟩, ⟨"A1", "Burrito"⟩] ++
          [⟨"A1", "Taco"⟩, ⟨"A1", "Churro"⟩])).pendingOrders.lookup "A1" = some o2 ∧
      o2.Items.length = 2 := by
  obtain ⟨o1, o2, h1, h2, _, _, hlen, _⟩ :=
    runReady_items_fixed_ready_monotone (storeOf twoItemOrder)
      [⟨"A1", "Taco"⟩, ⟨"A1", "Burrito"⟩] [⟨"A1", "Taco"⟩, ⟨"A1", "Churro"⟩] "A1"
      twoItemOrder (by decide)
  exact ⟨o1, o2, h1, h2, hlen.2⟩

/-! ## The completion signal -/

theorem markItemReady_checks_of_lookup (s : Store) (f : FoodReady) (k : PendingOrder)
    (h : s.lookup f.OrderID = some k) :
    ∃ k1, (MarkItemReady s f).pendingOrders.lookup f.OrderID = some k1 ∧
      List.Forall₂ itemAdvances k.Items k1.Items ∧
      (MarkItemReady s f).orderChecks = if k1.IsReady then [k1] else [] := by
  rw [markItemReady_of_lookup s f k h]
  exact ⟨_, lookup_replace_self s _ k h, forall2_itemAdvances_markItems _ _, rfl⟩

theorem itemsReady_markItems_iff (item : String) (items : List PendingOrderItem) :
    itemsReady (markItems item items) = true ↔
      ∀ a ∈ items, a.Ready = false → a.Name = item := by
  rw [markItems_eq_map, itemsReady_iff]
  constructor
  · intro h a ha hr
    by_contra hn
    have h1 := h _ (List.mem_map.mpr ⟨a, ha, rfl⟩)
    rw [if_neg hn, hr] at h1
    exact absurd h1 (by decide)
  · intro h b hb
    obtain ⟨a, ha, hab⟩ := List.mem_map.mp hb
    by_cases hn : a.Name = item
    · rw [if_pos hn] at hab
      rw [← hab]
    · rw [if_neg hn] at hab
      rw [← hab]
      cases hr : a.Ready
      · exact absurd (h a ha hr) hn
      · rfl

theorem markItems_eq_self (item : String) (items : List PendingOrderItem)
    (h : ∀ a ∈ items, a.Name = item → a.Ready = true) : markItems item items = items := by
  rw [markItems_eq_map]
  conv_rhs => rw [← List.map_id items]
  apply List.map_congr_left
  intro a ha
  by_cases hn : a.Name = item
  · have hr := h a ha hn
    rw [if_pos hn]
    cases a with
    | mk n r =>
      simp only at hr
      subst hr
      rfl
  · rw [if_neg hn]
    rfl

theorem exists_unready_of_not_ready (items : List PendingOrderItem)
    (h : itemsReady items = false) : ∃ a ∈ items, a.Ready = false := by
  by_contra hne
  have hall : ∀ a ∈ items, a.Ready = true := by
    intro a ha
    cases hr : a.Ready
    · exact absurd ⟨a, ha, hr⟩ hne
    · rfl
  rw [(itemsReady_iff items).mpr hall] at h
  exact absurd h (by decide)

theorem markItemReady_checks_ne_nil_iff (s : Store) (f : FoodReady) (k : PendingOrder)
    (h : s.lookup f.OrderID = some k) :
    (MarkItemReady s f).orderChecks ≠ [] ↔
      ∀ a ∈ k.Items, a.Ready = false → a.Name = f.Item := by
  rw [markItemReady_of_lookup s f k h, ← itemsReady_markItems_iff]
  show (if itemsReady (markItems f.Item k.Items) = true then _ else _) ≠ [] ↔ _
  cases hr : itemsReady (markItems f.Item k.Items) <;> simp

/-- C3, as the code has it: `MarkItemReady` invokes `OrderCheck` exactly when the order of
the event is in the store and is complete after the call, and then once, on the order as
it stands after the call; that is, exactly when every item of the order that is not yet
ready carries the name of the event.  For an order that was not complete before the call
this is the completion edge: the call signals exactly when the name of the event is that
of an unready item and of every unready item, and a call that re-marks ready items only,
or names an item the order does not have, leaves the store as it was, the order
incomplete, and does not signal.  For an order that was complete before the call every
call signals, so once an order is complete every later call for it, after any further
events, signals again. -/
theorem markItemReady_signals_iff_complete_after (s : Store) (f : FoodReady) :
    ((MarkItemReady s f).orderChecks ≠ [] ↔
      ∃ k k1, s.lookup f.OrderID = some k ∧
        (MarkItemReady s f).pendingOrders.lookup f.OrderID = some k1 ∧ k1.IsReady = true) ∧
    (∀ k1, (MarkItemReady s f).pendingOrders.lookup f.OrderID = some k1 →
      (MarkItemReady s f).orderChecks = [] ∨ (MarkItemReady s f).orderChecks = [k1]) ∧
    (∀ k, s.lookup f.OrderID = some k →
      ((MarkItemReady s f).orderChecks ≠ [] ↔
        ∀ a ∈ k.Items, a.Ready = false → a.Name = f.Item)) ∧
    (∀ k, s.lookup f.OrderID = some k → k.IsReady = false →
      ((MarkItemReady s f).orderChecks ≠ [] ↔
        (∃ a ∈ k.Items, a.Ready = false ∧ a.Name = f.Item) ∧
          ∀ a ∈ k.Items, a.Ready = false → a.Name = f.Item)) ∧
    (∀ k, s.lookup f.OrderID = some k → k.IsReady = false →
      (∀ a ∈ k.Items, a.Name = f.Item → a.Ready = true) →
      (MarkItemReady s f).pendingOrders = s ∧
        (MarkItemReady s f).pendingOrders.lookup f.OrderID = some k ∧
        (MarkItemReady s f).orderChecks = []) ∧
    (∀ k, s.lookup f.OrderID = some k → k.IsReady = true →
      ∀ evs : List FoodReady,
        (MarkItemReady (runReady s evs).pendingOrders f).orderChecks ≠ []) := by
  refine ⟨?_, ?_, ?_, ?_, ?_, ?_⟩
  · cases hk : s.lookup f.OrderID with
    | none =>
      rw [markItemReady_of_absent s f hk]
      simp
    | some k =>
      obtain ⟨k1, hl, _, hc⟩ := markItemReady_checks_of_lookup s f k hk
      rw [hc, hl]
      cases hr : k1.IsReady <;> simp [hr]
  · intro k1 hl
    cases hk : s.lookup f.OrderID with
    | none =>
      rw [markItemReady_of_absent s f hk]
      exact Or.inl rfl
    | some k =>
      obtain ⟨k2, hl2, _, hc⟩ := markItemReady_checks_of_lookup s f k hk
      rw [hl] at hl2
      have hkk := Option.some.inj hl2
      subst hkk
      rw [hc]
      cases hr : k1.IsReady
      · exact Or.inl rfl
      · exact Or.inr rfl
  · intro k hk
    exact markItemReady_checks_ne_nil_iff s f k hk
  · intro k hk hnot
    rw [markItemReady_checks_ne_nil_iff s f k hk]
    constructor
    · intro hall
      obtain ⟨a, ha, hr⟩ := exists_unready_of_not_ready k.Items hnot
      exact ⟨⟨a, ha, hr, hall a ha hr⟩, hall⟩
    · exact fun h => h.2
  · intro k hk hnot hmatch
    have hsame : markItems f.Item k.Items = k.Items := markItems_eq_self _ _ hmatch
    have hk1 : ({ k with Items := markItems f.Item k.Items } : PendingOrder) = k := by
      rw [hsame]
    rw [markItemReady_of_lookup s f k hk, hk1]
    have hrep : s.replace f.OrderID k = s := replace_same s hk
    refine ⟨hrep, ?_, ?_⟩
    · show (s.replace f.OrderID k).lookup f.OrderID = some k
      rw [hrep]
      exact hk
    · show (if k.IsReady = true then [k] else []) = []
      rw [hnot]
      rfl
  · intro k hk hready evs
    obtain ⟨o1, h1, _, _, hf1⟩ := runReady_keeps evs s f.OrderID k hk
    obtain ⟨k1, _, hf2, hc⟩ :=
      markItemReady_checks_of_lookup (runReady s evs).pendingOrders f o1 h1
    have hr : k1.IsReady = true :=
      itemsReady_of_forall2 (forall2_itemAdvances_trans hf1 hf2) hready
    rw [hc, hr]
    simp

/-- Witness for C3 as amended: on `A1` with `Taco` and `Burrito` unready, the event
`Churro`, an item the order does not have, leaves the store as it was and does not
signal; on `A1` with `Taco` ready and `Burrito` unready, the event `Taco` re-marks a ready
item and does not signal; and once `A1` is complete the later event `Churro`, after two
further events, signals. -/
theorem markItemReady_signals_iff_complete_after_witness :
    ((MarkItemReady (storeOf twoItemOrder) ⟨"A1", "Churro"⟩).pendingOrders =
        storeOf twoItemOrder ∧
      (MarkItemReady (storeOf twoItemOrder) ⟨"A1", "Churro"⟩).pendingOrders.lookup "A1" =
        some twoItemOrder ∧
      (MarkItemReady (storeOf twoItemOrder) ⟨"A1", "Churro"⟩).orderChecks = []) ∧
    (MarkItemReady (storeOf ⟨"A1", "rh-1", [⟨"Taco", true⟩, ⟨"Burrito", false⟩]⟩)
      ⟨"A1", "Taco"⟩).orderChecks = [] ∧
    (MarkItemReady
      (runReady (storeOf (tacoOrder true)) [⟨"A1", "Taco"⟩, ⟨"Z9", "Taco"⟩]).pendingOrders
      ⟨"A1", "Churro"⟩).orderChecks ≠ [] :=
  ⟨(markItemReady_signals_iff_complete_after (storeOf twoItemOrder)
      ⟨"A1", "Churro"⟩).2.2.2.2.1 twoItemOrder (by decide) (by decide) (by decide),
   ((markItemReady_signals_iff_complete_after
      (storeOf ⟨"A1", "rh-1", [⟨"Taco", true⟩, ⟨"Burrito", false⟩]⟩)
      ⟨"A1", "Taco"⟩).2.2.2.2.1 ⟨"A1", "rh-1", [⟨"Taco", true⟩, ⟨"Burrito", false⟩]⟩
      (by decide) (by decide) (by decide)).2.2,
   (markItemReady_signals_iff_complete_after (storeOf (tacoOrder true))
      ⟨"A1", "Churro"⟩).2.2.2.2.2 (tacoOrder true) (by decide) (by decide)
      [⟨"A1", "Taco"⟩, ⟨"Z9", "Taco"⟩]⟩

/-- Counterexample to C3 as stated: the order `A1` is complete before the call, the event
re-marks its ready item `Taco`, and `OrderCheck` is invoked; an event naming `Churro`,
which `A1` does not have, invokes it too; and the history `Taco`, `Taco`, `Churro` on the
order with the one unready item `Taco` invokes it three times, not once. -/
theorem markItemReady_signals_when_already_complete :
    (storeOf (tacoOrder true)).lookup "A1" = some (tacoOrder true) ∧
    (tacoOrder true).IsReady = true ∧
    (MarkItemReady (storeOf (tacoOrder true)) ⟨"A1", "Taco"⟩).orderChecks = [tacoOrder true] ∧
    (MarkItemReady (storeOf (tacoOrder true)) ⟨"A1", "Churro"⟩).orderChecks =
      [tacoOrder true] ∧
    (runReady (storeOf (tacoOrder false))
      [⟨"A1", "Taco"⟩, ⟨"A1", "Taco"⟩, ⟨"A1", "Churro"⟩]).orderChecks =
      [tacoOrder true, tacoOrder true, tacoOrder true] ∧
    ¬ (∀ (s : Store) (f : FoodReady),
        (MarkItemReady s f).orderChecks ≠ [] ↔
          ∃ k k1, s.lookup f.OrderID = some k ∧ k.IsReady = false ∧
            (MarkItemReady s f).pendingOrders.lookup f.OrderID = some k1 ∧
            k1.IsReady = true) := by
  refine ⟨by decide, by decide, by decide, by decide, by decide, ?_⟩
  intro hall
  have h := (hall (storeOf (tacoOrder true)) ⟨"A1", "Taco"⟩).mp (by decide)
  obtain ⟨k, _, hk, hkr, _⟩ := h
  have hk1 : (storeOf (tacoOrder true)).lookup "A1" = some (tacoOrder true) := by decide
  have hk2 : k = tacoOrder true := by
    have h3 : (storeOf (tacoOrder true)).lookup "A1" = some k := hk
    rw [hk1] at h3
    exact (Option.some.inj h3).symm
  subst hk2
  exact absurd hkr (by decide)

/-! ## A poll of the queue -/

/-- C9 on the code: a message whose body fails to decode ends the batch, for every decoder
and every store; with the undecodable `badMessage` first, the decodable `goodMessage`
after it is neither created nor deleted, while in the other order it is both. -/
theorem processMessages_decode_error_ends_batch :
    (∀ (unmarshal : String → Option FoodOrder) (s : Store) (m : Message)
        (rest : List Message), unmarshal m.Body = none →
        processMessages unmarshal s (m :: rest) = { pendingOrders := s, deleted := [] }) ∧
    sampleUnmarshal badMessage.Body = none ∧
    sampleUnmarshal goodMessage.Body = some { Items := ["Taco"] } ∧
    (processMessages sampleUnmarshal ∅ [badMessage, goodMessage]).pendingOrders.lookup "m-2"
      = none ∧
    (processMessages sampleUnmarshal ∅ [badMessage, goodMessage]).deleted = [] ∧
    (processMessages sampleUnmarshal ∅ [goodMessage, badMessage]).pendingOrders.lookup "m-2"
      = some { OrderID := "m-2", ReceiptHandle := "rh-2",
               Items := [{ Name := "Taco", Ready := false }] } ∧
    (processMessages sampleUnmarshal ∅ [goodMessage, badMessage]).deleted = ["rh-2"] := by
  refine ⟨?_, by decide, by decide, by decide, by decide, by decide, by decide⟩
  intro unmarshal s m rest h
  simp [processMessages, h]

/-! ## The `/ready` endpoint -/

/-- C10 on the code: when `BindJSON` fails the handler of `main` still applies
`MarkItemReady` to the value left in `ready` and then asks for status 200, for every store;
so a request that fails to decode with `orderId` read as `A1` invokes `OrderCheck` on the
complete order `A1`, and one with `item` read as `Taco` as well marks `Taco` ready.  The
handler registered in `main_test.go` returns after the abort and does neither. -/
theorem readyHandler_applies_event_after_bind_error :
    (∀ (s : Store) (ready : FoodReady),
      readyHandler s ready true =
        { pendingOrders := (MarkItemReady s ready).pendingOrders,
          orderChecks := (MarkItemReady s ready).orderChecks,
          statusCalls := [500, 200] }) ∧
    (readyHandler (storeOf (tacoOrder true)) ⟨"A1", ""⟩ true).orderChecks = [tacoOrder true] ∧
    (readyHandler (storeOf (tacoOrder false)) ⟨"A1", "Taco"⟩ true).pendingOrders ≠
      storeOf (tacoOrder false) ∧
    (readyHandler (storeOf (tacoOrder false)) ⟨"A1", "Taco"⟩ true).pendingOrders.lookup "A1" =
      some (tacoOrder true) ∧
    (readyHandler (storeOf (tacoOrder false)) ⟨"A1", "Taco"⟩ true).statusCalls = [500, 200] ∧
    (∀ (s : Store) (ready : FoodReady),
      readyHandlerTest s ready true =
        { pendingOrders := s, orderChecks := [], statusCalls := [500] }) := by
  refine ⟨fun _ _ => rfl, by decide, ?_, by decide, by decide, fun _ _ => rfl⟩
  intro h
  have hl : (readyHandler (storeOf (tacoOrder false)) ⟨"A1", "Taco"⟩ true).pendingOrders.lookup
      "A1" = (storeOf (tacoOrder false)).lookup "A1" := by rw [h]
  exact absurd hl (by decide)

end Kitchen
